import Mathlib

/-!
Verification development for the StockBar market-data acquisition layer
(src/Stockbar/Resources/get_stock_data.py).

Conventions of the shallow embedding:
* Python strings are modeled as lists of characters (`PyStr`); the string
  methods used by the source (`upper`, `endswith`, `replace`, `lower`) are
  re-implemented structurally so that concrete instances evaluate.
* Prices (Python floats holding decimal market data) are modeled as
  rationals; timestamps (epoch seconds / date ordinals) as integers.
* Network and parsing effects are abstracted: every adapter takes the
  already-parsed payload rows it iterates over, and the orchestrator takes
  an environment mapping a provider name to that provider call's outcome.
* Python list.sort and pandas sort_index are stable sorts; they are modeled
  with insertion sort, which is also stable.
-/

namespace Stockbar

/-- Python str modeled as a list of characters. -/
abbrev PyStr := List Char

/-- Uppercase a single character, as Python str.upper does for ASCII. -/
def upChar (c : Char) : Char :=
  if 97 ≤ c.toNat ∧ c.toNat ≤ 122 then Char.ofNat (c.toNat - 32) else c

/-- Lowercase a single character, as Python str.lower does for ASCII. -/
def lowChar (c : Char) : Char :=
  if 65 ≤ c.toNat ∧ c.toNat ≤ 90 then Char.ofNat (c.toNat + 32) else c

/-- Python s.upper(). -/
def pyUpper (s : PyStr) : PyStr := s.map upChar

/-- Python s.lower(). -/
def pyLower (s : PyStr) : PyStr := s.map lowChar

/-- Python s.endswith(".L") on an already-given string. -/
def endsWithDotL (s : PyStr) : Bool :=
  match s.reverse with
  | 'L' :: '.' :: _ => true
  | _ => false

/-- Python s.endswith(".LON") on an already-given string. -/
def endsWithDotLON (s : PyStr) : Bool :=
  match s.reverse with
  | 'N' :: 'O' :: 'L' :: '.' :: _ => true
  | _ => false

/-- Source test symbol.upper().endswith('.L'). -/
def endsDotL (s : PyStr) : Bool := endsWithDotL (pyUpper s)

/-- Source test symbol.upper().endswith('.LON'). -/
def endsDotLON (s : PyStr) : Bool := endsWithDotLON (pyUpper s)

/-- Python s.replace(".LON", ".L"): left-to-right, non-overlapping. -/
def replaceLON : List Char → List Char
  | '.' :: 'L' :: 'O' :: 'N' :: rest => '.' :: 'L' :: replaceLON rest
  | c :: rest => c :: replaceLON rest
  | [] => []

/-- Source handle_lse_symbol: canonicalize an LSE ticker for the FMP API
(get_stock_data.py lines 152-158). -/
def handle_lse_symbol (s : PyStr) : PyStr :=
  if endsDotL s then pyUpper s
  else if endsDotLON s then replaceLON (pyUpper s)
  else pyUpper s

/-- Prices are modeled as rationals. -/
abbrev Price := Rat

/-- Market session states emitted by the source (strings PRE, REGULAR,
POST, CLOSED). -/
inductive MarketState
  | PRE
  | REGULAR
  | POST
  | CLOSED
deriving DecidableEq, Repr

/-- US session classification from Eastern time-of-day
(get_stock_data.py lines 496-511). -/
def usMarketState (h m : Nat) : MarketState :=
  if (4 ≤ h ∧ h < 9) ∨ (h = 9 ∧ m < 30) then .PRE
  else if (h = 9 ∧ 30 ≤ m) ∨ (10 ≤ h ∧ h < 16) then .REGULAR
  else if 16 ≤ h ∧ h < 20 then .POST
  else .CLOSED

/-- LSE session classification from London time-of-day
(get_stock_data.py lines 462-477). -/
def lseMarketState (h m : Nat) : MarketState :=
  if 7 ≤ h ∧ h < 8 then .PRE
  else if h = 8 ∨ (9 ≤ h ∧ h < 16) ∨ (h = 16 ∧ m < 30) then .REGULAR
  else if (h = 16 ∧ 30 ≤ m) ∨ (h = 17 ∧ m < 30) then .POST
  else .CLOSED

/-- Canonical historical point dict {timestamp, symbol, price, previousClose}. -/
structure HistoricalPoint where
  timestamp : Int
  symbol : PyStr
  price : Price
  previousClose : Price
deriving DecidableEq, Repr

/-- Parsed Twelve Data time-series entry: datetime (as epoch seconds after
strptime/timestamp) and float(entry['close']). -/
structure TDEntry where
  timestamp : Int
  close : Price
deriving DecidableEq, Repr

/-- Parsed Stooq CSV row: Date (as epoch seconds) and float(Close). -/
structure StooqRow where
  timestamp : Int
  close : Price
deriving DecidableEq, Repr

/-- Parsed yfinance history row: index timestamp, float(row['Open']),
float(row['Close']). -/
structure YfRow where
  timestamp : Int
  openPrice : Price
  close : Price
deriving DecidableEq, Repr

/-- Parsed FMP historical entry: date (as epoch seconds), entry['close'],
and entry.get('open') which may be absent. -/
structure FmpEntry where
  timestamp : Int
  close : Price
  openPrice : Option Price
deriving DecidableEq, Repr

/-- Tail of the previousClose-fixing loop: every point's previousClose is
overwritten with the price of the point before it, threading the prior
price through the fold. -/
def fixPrevAux (prev : Price) : List HistoricalPoint → List HistoricalPoint
  | [] => []
  | p :: rest => { p with previousClose := prev } :: fixPrevAux p.price rest

/-- Post-processing loop shared by the Twelve Data and Stooq adapters
(get_stock_data.py lines 242-248 and 348-352): previousClose[i] :=
price[i-1] for i>0, and previousClose[0] := price[0]. -/
def fixPreviousClose : List HistoricalPoint → List HistoricalPoint
  | [] => []
  | p :: rest => { p with previousClose := p.price } :: fixPrevAux p.price rest

/-- Source fetch_historical_data_twelvedata (get_stock_data.py lines
172-255), given the parsed data['values'] rows: builds points with a 0.0
previousClose placeholder, then runs the fixing loop. No minor-unit
division is performed by this adapter. -/
def fetch_historical_data_twelvedata (symbol : PyStr) (values : List TDEntry) :
    List HistoricalPoint :=
  fixPreviousClose
    (values.map fun e =>
      { timestamp := e.timestamp, symbol := symbol, price := e.close, previousClose := 0 })

/-- Source fetch_historical_data_stooq (get_stock_data.py lines 270-359),
given the parsed CSV rows (newest first, as Stooq serves them): reverses
the rows, divides the close by 100 for .L/.LON symbols, returns None when
no rows survive, else runs the previousClose fixing loop. -/
def fetch_historical_data_stooq (symbol : PyStr) (rows : List StooqRow) :
    Option (List HistoricalPoint) :=
  let hd := rows.reverse.map fun r =>
    let close := if endsDotL symbol || endsDotLON symbol then r.close / 100 else r.close
    ({ timestamp := r.timestamp, symbol := symbol, price := close, previousClose := 0 }
      : HistoricalPoint)
  if hd = [] then none else some (fixPreviousClose hd)

/-- Loop body of fetch_historical_data_yfinance (get_stock_data.py lines
622-647): previous_close_raw is the prior row's raw close, or the current
row's raw open for the first row; the .L division is applied to the raw
values of each row independently. -/
def yfHistAux (symbol : PyStr) (conv : Price → Price) :
    Option Price → List YfRow → List HistoricalPoint
  | _, [] => []
  | prevRaw, r :: rest =>
    let previousCloseRaw := match prevRaw with | some p => p | none => r.openPrice
    { timestamp := r.timestamp, symbol := symbol,
      price := conv r.close, previousClose := conv previousCloseRaw }
      :: yfHistAux symbol conv (some r.close) rest

/-- Source fetch_historical_data_yfinance (get_stock_data.py lines
601-657), given the parsed hourly history rows. Returns None when the
history is empty. Only a trailing .L (never .LON) triggers the division. -/
def fetch_historical_data_yfinance (symbol : PyStr) (rows : List YfRow) :
    Option (List HistoricalPoint) :=
  if rows = [] then none
  else
    let conv : Price → Price := fun p => if endsDotL symbol then p / 100 else p
    some (yfHistAux symbol conv none rows)

/-- Source fetch_historical_data_fmp (get_stock_data.py lines 659-700),
given the parsed data['historical'] entries: previous_close is taken from
the entry's own open (falling back to its close), divided for canonical .L
tickers, and the result is sorted by timestamp (stable). -/
def fetch_historical_data_fmp (symbol : PyStr) (entries : List FmpEntry) :
    List HistoricalPoint :=
  let api := handle_lse_symbol symbol
  let hd := entries.map fun e =>
    let close := e.close
    let previousClose := e.openPrice.getD e.close
    let close := if endsWithDotL api then close / 100 else close
    let previousClose := if endsWithDotL api then previousClose / 100 else previousClose
    ({ timestamp := e.timestamp, symbol := symbol, price := close,
       previousClose := previousClose } : HistoricalPoint)
  hd.insertionSort (fun a b => a.timestamp ≤ b.timestamp)

/-- Daily bar of the 5d yfinance history used to derive previous close:
calendar date (as an ordinal), float(Open), float(Close). -/
structure DailyBar where
  date : Int
  openPrice : Price
  close : Price
deriving DecidableEq, Repr

/-- Relevant fields of ticker.info; each may be absent. -/
structure YfInfo where
  regularMarketTime : Option Int
  preMarketPrice : Option Price
  postMarketPrice : Option Price
  regularMarketPrice : Option Price
deriving DecidableEq, Repr

/-- Inputs to one fetch_real_time_quote_yfinance call: the parsed daily
history, the current date, ticker.info (None when the info fetch raised),
the fast_info and intraday fallbacks (None when they raised or were
empty), the market-timezone clock, and the capture time int(time.time()). -/
structure YfEnv where
  dailyHist : List DailyBar
  today : Int
  info : Option YfInfo
  fastInfoLast : Option Price
  intradayLast : Option Price
  marketHour : Nat
  marketMinute : Nat
  now : Int
deriving DecidableEq, Repr

/-- Quote dict returned by fetch_real_time_quote_yfinance
(get_stock_data.py lines 531-542). -/
structure Quote where
  symbol : PyStr
  price : Price
  regularMarketPrice : Price
  previousClose : Price
  preMarketPrice : Option Price
  postMarketPrice : Option Price
  preMarketTime : Option Int
  postMarketTime : Option Int
  marketState : MarketState
  timestamp : Int
deriving DecidableEq, Repr

/-- Previous-close selection of fetch_real_time_quote_yfinance
(get_stock_data.py lines 371-389): sort the daily history by date, keep
the bars dated strictly before today, and use the close of the last such
bar; when none exist, fall back to the close of the last bar overall. -/
def yfPreviousCloseRaw (hist : List DailyBar) (today : Int) : Option Price :=
  if hist = [] then none
  else
    let sorted := hist.insertionSort (fun a b => a.date ≤ b.date)
    let complete := sorted.filter (fun b => decide (b.date < today))
    match complete.getLast? with
    | some b => some b.close
    | none => sorted.getLast?.map (fun b => b.close)

/-- Source fetch_real_time_quote_yfinance (get_stock_data.py lines
363-546): derive the raw previous close, pick the raw current price
through the info / fast_info / intraday / previous-close fallbacks,
classify the market session (overriding the current price with the raw
pre or post price when present), and only then divide every price field
by 100 for .L symbols. -/
def fetch_real_time_quote_yfinance (symbol : PyStr) (env : YfEnv) : Option Quote :=
  match yfPreviousCloseRaw env.dailyHist env.today with
  | none => none
  | some previousCloseRaw =>
    let regularMarketTime := env.info.bind (fun i => i.regularMarketTime)
    let preMarketRaw := env.info.bind (fun i => i.preMarketPrice)
    let postMarketRaw := env.info.bind (fun i => i.postMarketPrice)
    let regular0 := env.info.bind (fun i => i.regularMarketPrice)
    let regular1 := match regular0 with | some p => some p | none => env.fastInfoLast
    let regular2 := match regular1 with | some p => some p | none => env.intradayLast
    let regularMarketRaw := match regular2 with | some p => p | none => previousCloseRaw
    let state :=
      if endsDotL symbol then lseMarketState env.marketHour env.marketMinute
      else usMarketState env.marketHour env.marketMinute
    let currentRaw :=
      match state, preMarketRaw, postMarketRaw with
      | .PRE, some p, _ => p
      | .POST, _, some p => p
      | _, _, _ => regularMarketRaw
    let conv : Price → Price := fun p => if endsDotL symbol then p / 100 else p
    let timestamp := match regularMarketTime with | some t => t | none => env.now
    some
      { symbol := symbol
        price := conv currentRaw
        regularMarketPrice := conv regularMarketRaw
        previousClose := conv previousCloseRaw
        preMarketPrice := preMarketRaw.map conv
        postMarketPrice := postMarketRaw.map conv
        preMarketTime :=
          if state = .PRE ∧ preMarketRaw.isSome then some env.now else none
        postMarketTime :=
          if state = .POST ∧ postMarketRaw.isSome then some env.now else none
        marketState := state
        timestamp := timestamp }

/-- Parsed first element of the FMP /quote payload. -/
structure FmpQuoteRaw where
  price : Price
  previousClose : Price
  timestamp : Int
deriving DecidableEq, Repr

/-- Quote dict returned by fetch_real_time_quote_fmp
(get_stock_data.py lines 573-578). -/
structure FmpQuote where
  symbol : PyStr
  price : Price
  previousClose : Price
  timestamp : Int
deriving DecidableEq, Repr

/-- Source fetch_real_time_quote_fmp (get_stock_data.py lines 549-584),
given the parsed JSON array: take the first element, reject non-positive
prices, divide by 100 when the canonical ticker ends in .L. -/
def fetch_real_time_quote_fmp (symbol : PyStr) (data : List FmpQuoteRaw) :
    Option FmpQuote :=
  match data with
  | [] => none
  | q :: _ =>
    if q.price ≤ 0 ∨ q.previousClose ≤ 0 then none
    else
      let api := handle_lse_symbol symbol
      let currentPrice := if endsWithDotL api then q.price / 100 else q.price
      let previousClose := if endsWithDotL api then q.previousClose / 100 else q.previousClose
      some { symbol := symbol, price := currentPrice, previousClose := previousClose,
             timestamp := q.timestamp }

/-- Parsed yfinance OHLC history row. -/
structure OhlcRow where
  timestamp : Int
  openPrice : Price
  high : Price
  low : Price
  close : Price
  volume : Int
deriving DecidableEq, Repr

/-- OHLC dict returned by fetch_ohlc_data_yfinance. -/
structure OhlcPoint where
  timestamp : Int
  symbol : PyStr
  openPrice : Price
  high : Price
  low : Price
  close : Price
  volume : Int
deriving DecidableEq, Repr

/-- Source fetch_ohlc_data_yfinance (get_stock_data.py lines 871-912):
None on an empty history, otherwise each of open/high/low/close divided
by 100 for .L symbols. -/
def fetch_ohlc_data_yfinance (symbol : PyStr) (rows : List OhlcRow) :
    Option (List OhlcPoint) :=
  if rows = [] then none
  else
    let conv : Price → Price := fun p => if endsDotL symbol then p / 100 else p
    some (rows.map fun r =>
      { timestamp := r.timestamp, symbol := symbol, openPrice := conv r.openPrice,
        high := conv r.high, low := conv r.low, close := conv r.close,
        volume := r.volume })

/-- Persisted cache entry {timestamp, result}; either key may be missing
in a hand-edited or stale cache file, so both are optional. The payload
type is abstract. -/
structure CacheEntry (Q : Type) where
  timestamp : Option Int
  result : Option Q
deriving DecidableEq, Repr

/-- Python dict lookup d.get(k) on an association list representing the
dict (keys unique, insertion-ordered). -/
def dictGet {α : Type} : List (PyStr × α) → PyStr → Option α
  | [], _ => none
  | (k, v) :: rest, s => if k = s then some v else dictGet rest s

/-- Python dict assignment d[k] = v: overwrite in place, or append a new
key at the end. -/
def dictSet {α : Type} : List (PyStr × α) → PyStr → α → List (PyStr × α)
  | [], k, v => [(k, v)]
  | (k0, v0) :: rest, k, v =>
    if k0 = k then (k, v) :: rest else (k0, v0) :: dictSet rest k v

/-- Source get_cached (get_stock_data.py lines 83-89): an entry is served
only when it has a truthy timestamp whose age is strictly below the 300s
TTL; any other condition yields None. Note Python truthiness: a timestamp
of 0 is falsy. -/
def get_cached {Q : Type} (cache : List (PyStr × CacheEntry Q)) (now : Int)
    (symbol : PyStr) : Option Q :=
  match dictGet cache symbol with
  | none => none
  | some entry =>
    match entry.timestamp with
    | none => none
    | some ts => if ts ≠ 0 ∧ now - ts < 300 then entry.result else none

/-- Source set_cache (get_stock_data.py lines 91-96): store the result
with the capture time (the disk write in save_cache is not modeled). -/
def set_cache {Q : Type} (cache : List (PyStr × CacheEntry Q)) (now : Int)
    (symbol : PyStr) (result : Q) : List (PyStr × CacheEntry Q) :=
  dictSet cache symbol { timestamp := some now, result := some result }

/-- Observable state of the persisted cache file at startup. -/
inductive CacheFileState
  | missing
  | unreadable
  | content (s : PyStr)
deriving DecidableEq, Repr

/-- Startup cache load (get_stock_data.py lines 69-77), with JSON parsing
abstracted as a partial parse function. The open() call sits outside the
try block, so only the json.load failure is caught; an existing but
unreadable file raises out of module initialization, modeled as
Except.error. -/
def loadCache {C : Type} (emptyCache : C) (parse : PyStr → Option C) :
    CacheFileState → Except Unit C
  | .missing => .ok emptyCache
  | .content s => .ok ((parse s).getD emptyCache)
  | .unreadable => .error ()

/-- Failure taxonomy of the specification, used here to label the
exception a provider call raised. -/
inductive ErrorKind
  | AuthInvalid
  | RateLimited
  | Timeout
  | Network
  | NoData
  | Unknown
deriving DecidableEq, Repr

/-- Outcome of one provider call inside the fetch_historical_data loop:
either the adapter returned (None, an empty list, or data), or the call
raised an exception of the given kind. -/
inductive SourceOutcome
  | ret (r : Option (List HistoricalPoint))
  | exc (k : ErrorKind)
deriving DecidableEq, Repr

/-- Append an element unless already present; one step of the seen-set
deduplication in fetch_historical_data. -/
def addUnique (acc : List PyStr) (s : PyStr) : List PyStr :=
  if s ∈ acc then acc else acc ++ [s]

/-- Literal provider name yfinance. -/
def srcYfinance : PyStr := "yfinance".data

/-- Literal provider name fmp. -/
def srcFmp : PyStr := "fmp".data

/-- Literal provider name twelvedata. -/
def srcTwelvedata : PyStr := "twelvedata".data

/-- Literal provider name stooq. -/
def srcStooq : PyStr := "stooq".data

/-- Priority-list normalization of fetch_historical_data
(get_stock_data.py lines 740-756): lowercase and deduplicate the
configured sources, then append any of the four defaults not already
present. Never empty by construction. -/
def validSources (priority : List PyStr) : List PyStr :=
  let user := priority.foldl (fun acc s => addUnique acc (pyLower s)) []
  [srcYfinance, srcFmp, srcTwelvedata, srcStooq].foldl addUnique user

/-- Truthiness of one provider call result, as tested by if result: a
raised exception, a None return, and an empty list all count as failure. -/
def truthyResult (o : SourceOutcome) : Option (List HistoricalPoint) :=
  match o with
  | .ret (some pts) => if pts = [] then none else some pts
  | _ => none

/-- Result of the provider loop: the providers invoked (in order), the
first truthy result, and the last exception recorded. -/
structure RunResult where
  invoked : List PyStr
  result : Option (List HistoricalPoint)
  lastError : Option ErrorKind
deriving DecidableEq, Repr

/-- Provider loop of fetch_historical_data (get_stock_data.py lines
760-798): invoke each source in order; return the first truthy result
immediately; on a falsy return continue silently; on an exception record
it as last_error and continue. The environment maps a provider name to
the outcome of calling it. -/
def runSources (env : PyStr → SourceOutcome) : List PyStr → RunResult
  | [] => { invoked := [], result := none, lastError := none }
  | s :: rest =>
    match truthyResult (env s) with
    | some pts => { invoked := [s], result := some pts, lastError := none }
    | none =>
      let tail := runSources env rest
      { invoked := s :: tail.invoked
        result := tail.result
        lastError :=
          match env s with
          | .exc k => some (tail.lastError.getD k)
          | _ => tail.lastError }

/-- Source fetch_historical_data (get_stock_data.py lines 735-809): run
the loop over the normalized priority list and return its result. On
exhaustion the recorded last_error is deliberately dropped (lines
800-809: the final branch is pass; return None). -/
def fetch_historical_data (env : PyStr → SourceOutcome)
    (configPriority : Option (List PyStr)) : Option (List HistoricalPoint) :=
  (runSources env (validSources (configPriority.getD [srcYfinance, srcFmp]))).result

/-- Error codes emitted by output_error in main. -/
inductive ErrCode
  | INVALID_REQUEST
  | NO_DATA
  | TIMEOUT
  | RATE_LIMIT
  | API_KEY_RESTRICTED
  | NETWORK_ERROR
  | UNKNOWN
deriving DecidableEq, Repr

/-- Historical branch of main (get_stock_data.py lines 1041-1046):
fetch_historical_data never lets a provider exception escape its loop,
so the branch prints the data when truthy and otherwise reports NO_DATA. -/
def mainHistoricalOutput (res : Option (List HistoricalPoint)) :
    Except ErrCode (List HistoricalPoint) :=
  match res with
  | some pts => if pts = [] then .error .NO_DATA else .ok pts
  | none => .error .NO_DATA

/-- Real-time quote returned by fetch_real_time_quote: either the
yfinance quote or the FMP fallback quote. -/
inductive RTQuote
  | yf (q : Quote)
  | fmp (q : FmpQuote)
deriving DecidableEq, Repr

/-- Source fetch_real_time_quote (get_stock_data.py lines 586-599):
yfinance first when available, FMP otherwise. The Bool records whether
the FMP adapter was invoked. -/
def fetch_real_time_quote (yfAvailable : Bool) (symbol : PyStr)
    (env : Option YfEnv) (fmpData : List FmpQuoteRaw) : Option RTQuote × Bool :=
  if yfAvailable then
    match env.bind (fetch_real_time_quote_yfinance symbol) with
    | some q => (some (.yf q), false)
    | none => ((fetch_real_time_quote_fmp symbol fmpData).map .fmp, true)
  else ((fetch_real_time_quote_fmp symbol fmpData).map .fmp, true)

/-- Outcome of one fetch_real_time_quote chain call inside fetch_batch:
a returned Optional quote, or an exception. -/
inductive ChainOutcome (Q : Type)
  | ok (q : Option Q)
  | exc
deriving DecidableEq, Repr

/-- State threaded through the fetch_batch loop: the results dict, the
evolving cache, and the symbols for which the provider chain was
actually invoked. -/
structure BatchState (Q : Type) where
  results : List (PyStr × Option Q)
  cache : List (PyStr × CacheEntry Q)
  invoked : List PyStr
deriving DecidableEq, Repr

/-- One iteration of the fetch_batch loop (get_stock_data.py lines
815-838): serve from cache when fresh; otherwise invoke the chain, store
a success in the cache and the results, and record a None return or a
raised exception as None for that symbol without aborting. -/
def fetch_batch_step {Q : Type} (chain : PyStr → ChainOutcome Q) (now : Int)
    (st : BatchState Q) (symbol : PyStr) : BatchState Q :=
  match get_cached st.cache now symbol with
  | some q => { st with results := dictSet st.results symbol (some q) }
  | none =>
    match chain symbol with
    | .ok (some q) =>
      { results := dictSet st.results symbol (some q)
        cache := set_cache st.cache now symbol q
        invoked := st.invoked ++ [symbol] }
    | .ok none =>
      { st with results := dictSet st.results symbol none
                invoked := st.invoked ++ [symbol] }
    | .exc =>
      { st with results := dictSet st.results symbol none
                invoked := st.invoked ++ [symbol] }

/-- Source fetch_batch (get_stock_data.py lines 811-840). The chain
argument abstracts fetch_real_time_quote together with its network
effects; time is modeled as constant across the batch. -/
def fetch_batch {Q : Type} (chain : PyStr → ChainOutcome Q) (now : Int)
    (symbols : List PyStr) (cache : List (PyStr × CacheEntry Q)) : BatchState Q :=
  symbols.foldl (fetch_batch_step chain now) { results := [], cache := cache, invoked := [] }

/-- Cache pre-filter of the real-time branch of main (get_stock_data.py
lines 1071-1077): only symbols without a fresh cache entry are passed on
to fetch_batch. -/
def symbolsToFetch {Q : Type} (cache : List (PyStr × CacheEntry Q)) (now : Int)
    (symbols : List PyStr) : List PyStr :=
  symbols.filter (fun s => (get_cached cache now s).isNone)

/-- Multi-symbol JSON assembly of main (get_stock_data.py lines
1112-1124): append the quote of each symbol whose result is truthy; a
symbol whose result is None contributes nothing. The appended quote dict
carries its symbol field, modeled here as the pair's first component. -/
def mainJsonResults {Q : Type} (symbols : List PyStr)
    (results : List (PyStr × Option Q)) : List (PyStr × Q) :=
  symbols.filterMap (fun s =>
    match dictGet results s with
    | some (some q) => some (s, q)
    | _ => none)

/-! Helper lemmas about the dict model. -/

theorem dictGet_dictSet_self {α : Type} (d : List (PyStr × α)) (k : PyStr) (v : α) :
    dictGet (dictSet d k v) k = some v := by
  induction d with
  | nil => simp [dictGet, dictSet]
  | cons p rest ih =>
    by_cases h : p.1 = k
    · simp [dictSet, dictGet, h]
    · simp [dictSet, dictGet, h, ih]

theorem dictGet_dictSet_other {α : Type} (d : List (PyStr × α)) (k k2 : PyStr) (v : α)
    (h : k ≠ k2) : dictGet (dictSet d k v) k2 = dictGet d k2 := by
  induction d with
  | nil => simp [dictGet, dictSet, h]
  | cons p rest ih =>
    by_cases hp : p.1 = k
    · simp [dictSet, dictGet, hp, h]
    · simp [dictSet, dictGet, hp, ih]

theorem dictGet_mem {α : Type} (d : List (PyStr × α)) (s : PyStr) (v : α)
    (h : dictGet d s = some v) : (s, v) ∈ d := by
  induction d with
  | nil => simp [dictGet] at h
  | cons p rest ih =>
    obtain ⟨k, v0⟩ := p
    by_cases hp : k = s
    · subst hp
      simp [dictGet] at h
      subst h
      exact List.mem_cons_self _ _
    · simp only [dictGet, if_neg hp] at h
      exact List.mem_cons_of_mem _ (ih h)

theorem get_cached_set_cache_other {Q : Type} (cache : List (PyStr × CacheEntry Q))
    (now now2 : Int) (k s : PyStr) (q : Q) (h : k ≠ s) :
    get_cached (set_cache cache now2 k q) now s = get_cached cache now s := by
  unfold get_cached set_cache
  rw [dictGet_dictSet_other _ _ _ _ h]

/-! Helper lemmas about the previousClose fixing loops. -/

theorem fixPrevAux_map_price (l : List HistoricalPoint) :
    ∀ prev, (fixPrevAux prev l).map HistoricalPoint.price
      = l.map HistoricalPoint.price := by
  induction l with
  | nil => intro prev; rfl
  | cons p rest ih => intro prev; simp [fixPrevAux, ih]

theorem fixPrevAux_map_timestamp (l : List HistoricalPoint) :
    ∀ prev, (fixPrevAux prev l).map HistoricalPoint.timestamp
      = l.map HistoricalPoint.timestamp := by
  induction l with
  | nil => intro prev; rfl
  | cons p rest ih => intro prev; simp [fixPrevAux, ih]

theorem fixPreviousClose_map_price (l : List HistoricalPoint) :
    (fixPreviousClose l).map HistoricalPoint.price = l.map HistoricalPoint.price := by
  cases l with
  | nil => rfl
  | cons p rest => simp [fixPreviousClose, fixPrevAux_map_price]

theorem fixPreviousClose_map_timestamp (l : List HistoricalPoint) :
    (fixPreviousClose l).map HistoricalPoint.timestamp
      = l.map HistoricalPoint.timestamp := by
  cases l with
  | nil => rfl
  | cons p rest => simp [fixPreviousClose, fixPrevAux_map_timestamp]

theorem fixPrevAux_chain_from (l : List HistoricalPoint) :
    ∀ (x : HistoricalPoint),
      List.Chain' (fun a b => b.previousClose = a.price) (x :: fixPrevAux x.price l) := by
  induction l with
  | nil => intro x; simp [fixPrevAux]
  | cons p rest ih =>
    intro x
    have h2 := ih { p with previousClose := x.price }
    rw [show fixPrevAux x.price (p :: rest)
          = { p with previousClose := x.price } :: fixPrevAux p.price rest from rfl]
    rw [List.chain'_cons]
    exact ⟨rfl, h2⟩

theorem fixPreviousClose_chain (l : List HistoricalPoint) :
    List.Chain' (fun a b => b.previousClose = a.price) (fixPreviousClose l) := by
  cases l with
  | nil => simp [fixPreviousClose]
  | cons p rest => exact fixPrevAux_chain_from rest { p with previousClose := p.price }

theorem fixPreviousClose_head (p : HistoricalPoint) (rest : List HistoricalPoint) :
    (fixPreviousClose (p :: rest)).head? = some { p with previousClose := p.price } := rfl

/-! Helper lemmas about the yfinance historical loop. -/

theorem yfHistAux_map_price (symbol : PyStr) (conv : Price → Price) (l : List YfRow) :
    ∀ prevRaw, (yfHistAux symbol conv prevRaw l).map HistoricalPoint.price
      = l.map (fun r => conv r.close) := by
  induction l with
  | nil => intro prevRaw; rfl
  | cons r rest ih => intro prevRaw; simp [yfHistAux, ih]

theorem yfHistAux_map_timestamp (symbol : PyStr) (conv : Price → Price) (l : List YfRow) :
    ∀ prevRaw, (yfHistAux symbol conv prevRaw l).map HistoricalPoint.timestamp
      = l.map YfRow.timestamp := by
  induction l with
  | nil => intro prevRaw; rfl
  | cons r rest ih => intro prevRaw; simp [yfHistAux, ih]

theorem yfHistAux_chain (symbol : PyStr) (conv : Price → Price) (l : List YfRow) :
    ∀ prevRaw, List.Chain' (fun a b => b.previousClose = a.price)
      (yfHistAux symbol conv prevRaw l) := by
  induction l with
  | nil => intro prevRaw; simp [yfHistAux]
  | cons r rest ih =>
    intro prevRaw
    rw [show yfHistAux symbol conv prevRaw (r :: rest)
          = { timestamp := r.timestamp, symbol := symbol, price := conv r.close,
              previousClose :=
                conv (match prevRaw with | some p => p | none => r.openPrice) }
            :: yfHistAux symbol conv (some r.close) rest from rfl]
    rw [List.chain'_cons']
    refine ⟨?_, ih (some r.close)⟩
    intro y hy
    cases rest with
    | nil => simp [yfHistAux] at hy
    | cons r2 rest2 =>
      rw [show yfHistAux symbol conv (some r.close) (r2 :: rest2)
            = { timestamp := r2.timestamp, symbol := symbol, price := conv r2.close,
                previousClose := conv r.close }
              :: yfHistAux symbol conv (some r2.close) rest2 from rfl] at hy
      simp only [List.head?_cons, Option.mem_def, Option.some.injEq] at hy
      subst hy
      rfl

/-! Helper lemmas about sorting. -/

instance : IsTotal HistoricalPoint (fun a b => a.timestamp ≤ b.timestamp) :=
  ⟨fun a b => le_total a.timestamp b.timestamp⟩

instance : IsTrans HistoricalPoint (fun a b => a.timestamp ≤ b.timestamp) :=
  ⟨fun _ _ _ h1 h2 => le_trans h1 h2⟩

instance : IsTotal DailyBar (fun a b => a.date ≤ b.date) :=
  ⟨fun a b => le_total a.date b.date⟩

instance : IsTrans DailyBar (fun a b => a.date ≤ b.date) :=
  ⟨fun _ _ _ h1 h2 => le_trans h1 h2⟩

theorem getLast?_mem_self {α : Type} :
    ∀ (l : List α) (a : α), l.getLast? = some a → a ∈ l := by
  intro l
  induction l with
  | nil => intro a h; simp at h
  | cons x rest ih =>
    intro a h
    cases rest with
    | nil => simp_all
    | cons y rest2 =>
      rw [List.getLast?_cons_cons] at h
      exact List.mem_cons_of_mem _ (ih a h)

theorem sorted_le_getLast {α : Type} (key : α → Int) :
    ∀ (l : List α) (b : α), List.Pairwise (fun a c => key a ≤ key c) l →
      l.getLast? = some b → ∀ x ∈ l, key x ≤ key b := by
  intro l
  induction l with
  | nil => intro b _ h; simp at h
  | cons a rest ih =>
    intro b hp hl x hx
    cases rest with
    | nil =>
      simp only [List.getLast?_singleton, Option.some.injEq] at hl
      subst hl
      simp only [List.mem_singleton] at hx
      subst hx
      exact le_refl _
    | cons y rest2 =>
      rw [List.getLast?_cons_cons] at hl
      rcases List.mem_cons.mp hx with hxa | hxr
      · subst hxa
        exact (List.pairwise_cons.mp hp).1 b (getLast?_mem_self _ _ hl)
      · exact ih b (List.pairwise_cons.mp hp).2 hl x hxr

/-! Helper lemmas about the fetch_batch loop. -/

theorem mem_append_singleton {α : Type} {s a : α} {l : List α}
    (h : s ∈ l ++ [a]) : s ∈ l ∨ s = a := by
  rcases List.mem_append.mp h with h | h
  · exact Or.inl h
  · simp only [List.mem_singleton] at h
    exact Or.inr h

theorem fetch_batch_step_invoked {Q : Type} (chain : PyStr → ChainOutcome Q) (now : Int)
    (st : BatchState Q) (a s : PyStr)
    (h : s ∈ (fetch_batch_step chain now st a).invoked) : s ∈ st.invoked ∨ s = a := by
  unfold fetch_batch_step at h
  cases hc : get_cached st.cache now a with
  | some q =>
    rw [hc] at h
    exact Or.inl h
  | none =>
    rw [hc] at h
    cases hch : chain a with
    | ok r =>
      cases r with
      | some q =>
        rw [hch] at h
        exact mem_append_singleton h
      | none =>
        rw [hch] at h
        exact mem_append_singleton h
    | exc =>
      rw [hch] at h
      exact mem_append_singleton h

theorem fetch_batch_step_results_set {Q : Type} (chain : PyStr → ChainOutcome Q) (now : Int)
    (st : BatchState Q) (a : PyStr) :
    ∃ v, dictGet (fetch_batch_step chain now st a).results a = some v := by
  unfold fetch_batch_step
  cases hc : get_cached st.cache now a with
  | some q => exact ⟨some q, dictGet_dictSet_self _ _ _⟩
  | none =>
    cases hch : chain a with
    | ok r =>
      cases r with
      | some q => exact ⟨some q, dictGet_dictSet_self _ _ _⟩
      | none => exact ⟨none, dictGet_dictSet_self _ _ _⟩
    | exc => exact ⟨none, dictGet_dictSet_self _ _ _⟩

theorem fetch_batch_step_results_preserved {Q : Type} (chain : PyStr → ChainOutcome Q)
    (now : Int) (st : BatchState Q) (a s : PyStr)
    (h : ∃ v, dictGet st.results s = some v) :
    ∃ v, dictGet (fetch_batch_step chain now st a).results s = some v := by
  by_cases has : a = s
  · subst has
    exact fetch_batch_step_results_set chain now st a
  · unfold fetch_batch_step
    cases hc : get_cached st.cache now a with
    | some q => exact ⟨h.choose, by rw [dictGet_dictSet_other _ _ _ _ has]; exact h.choose_spec⟩
    | none =>
      cases hch : chain a with
      | ok r =>
        cases r with
        | some q =>
          exact ⟨h.choose, by rw [dictGet_dictSet_other _ _ _ _ has]; exact h.choose_spec⟩
        | none =>
          exact ⟨h.choose, by rw [dictGet_dictSet_other _ _ _ _ has]; exact h.choose_spec⟩
      | exc =>
        exact ⟨h.choose, by rw [dictGet_dictSet_other _ _ _ _ has]; exact h.choose_spec⟩

theorem fetch_batch_foldl_total {Q : Type} (chain : PyStr → ChainOutcome Q) (now : Int) :
    ∀ (symbols : List PyStr) (st : BatchState Q) (s : PyStr),
      ((∃ v, dictGet st.results s = some v) ∨ s ∈ symbols) →
      ∃ v, dictGet ((symbols.foldl (fetch_batch_step chain now) st)).results s = some v := by
  intro symbols
  induction symbols with
  | nil =>
    intro st s h
    rcases h with h | h
    · exact h
    · simp at h
  | cons a rest ih =>
    intro st s h
    rw [List.foldl_cons]
    apply ih
    rcases h with h | h
    · exact Or.inl (fetch_batch_step_results_preserved chain now st a s h)
    · rcases List.mem_cons.mp h with h | h
      · subst h
        exact Or.inl (fetch_batch_step_results_set chain now st s)
      · exact Or.inr h

theorem fetch_batch_foldl_invoked {Q : Type} (chain : PyStr → ChainOutcome Q) (now : Int) :
    ∀ (symbols : List PyStr) (st : BatchState Q) (s : PyStr),
      s ∈ ((symbols.foldl (fetch_batch_step chain now) st)).invoked →
      s ∈ st.invoked ∨ s ∈ symbols := by
  intro symbols
  induction symbols with
  | nil =>
    intro st s h
    exact Or.inl h
  | cons a rest ih =>
    intro st s h
    rw [List.foldl_cons] at h
    rcases ih (fetch_batch_step chain now st a) s h with h | h
    · rcases fetch_batch_step_invoked chain now st a s h with h | h
      · exact Or.inl h
      · subst h
        exact Or.inr (List.mem_cons_self _ _)
    · exact Or.inr (List.mem_cons_of_mem _ h)

theorem fetch_batch_step_cache_at {Q : Type} (chain : PyStr → ChainOutcome Q) (now : Int)
    (st : BatchState Q) (a s : PyStr) (hexc : chain s = .exc) :
    get_cached (fetch_batch_step chain now st a).cache now s
      = get_cached st.cache now s := by
  unfold fetch_batch_step
  cases hc : get_cached st.cache now a with
  | some q => rfl
  | none =>
    cases hch : chain a with
    | ok r =>
      cases r with
      | some q =>
        by_cases has : a = s
        · exfalso
          subst has
          rw [hch] at hexc
          exact ChainOutcome.noConfusion hexc
        · exact get_cached_set_cache_other _ _ _ _ _ _ has
      | none => rfl
    | exc => rfl

theorem fetch_batch_step_exc_sets_none {Q : Type} (chain : PyStr → ChainOutcome Q)
    (now : Int) (st : BatchState Q) (s : PyStr)
    (hexc : chain s = .exc) (hc : get_cached st.cache now s = none) :
    dictGet (fetch_batch_step chain now st s).results s = some none := by
  unfold fetch_batch_step
  rw [hc, hexc]
  exact dictGet_dictSet_self _ _ _

theorem fetch_batch_step_results_none_preserved {Q : Type} (chain : PyStr → ChainOutcome Q)
    (now : Int) (st : BatchState Q) (a s : PyStr)
    (hexc : chain s = .exc) (hcs : get_cached st.cache now s = none)
    (h : dictGet st.results s = some none) :
    dictGet (fetch_batch_step chain now st a).results s = some none := by
  by_cases has : a = s
  · subst has
    exact fetch_batch_step_exc_sets_none chain now st a hexc hcs
  · unfold fetch_batch_step
    cases hc : get_cached st.cache now a with
    | some q => rw [dictGet_dictSet_other _ _ _ _ has]; exact h
    | none =>
      cases hch : chain a with
      | ok r =>
        cases r with
        | some q => rw [dictGet_dictSet_other _ _ _ _ has]; exact h
        | none => rw [dictGet_dictSet_other _ _ _ _ has]; exact h
      | exc => rw [dictGet_dictSet_other _ _ _ _ has]; exact h

theorem fetch_batch_foldl_exc {Q : Type} (chain : PyStr → ChainOutcome Q) (now : Int)
    (s : PyStr) (hexc : chain s = .exc) :
    ∀ (symbols : List PyStr) (st : BatchState Q),
      get_cached st.cache now s = none →
      (s ∈ symbols ∨ dictGet st.results s = some none) →
      dictGet ((symbols.foldl (fetch_batch_step chain now) st)).results s = some none := by
  intro symbols
  induction symbols with
  | nil =>
    intro st hc h
    rcases h with h | h
    · simp at h
    · exact h
  | cons a rest ih =>
    intro st hc h
    rw [List.foldl_cons]
    apply ih
    · rw [fetch_batch_step_cache_at chain now st a s hexc]
      exact hc
    · rcases h with h | h
      · rcases List.mem_cons.mp h with h | h
        · subst h
          exact Or.inr (fetch_batch_step_exc_sets_none chain now st s hexc hc)
        · exact Or.inl h
      · exact Or.inr (fetch_batch_step_results_none_preserved chain now st a s hexc hc h)

/-- C7 (confirmed): for a US symbol the session computed from Eastern
time-of-day is PRE at 09:29, REGULAR at 09:30, POST at 16:00 and CLOSED
at 20:00, and over every valid time-of-day the computed state matches the
interval description PRE [04:00, 09:30), REGULAR [09:30, 16:00),
POST [16:00, 20:00), CLOSED otherwise — every boundary instant belongs to
the later state. -/
theorem us_session_boundaries :
    usMarketState 9 29 = .PRE ∧ usMarketState 9 30 = .REGULAR ∧
    usMarketState 16 0 = .POST ∧ usMarketState 20 0 = .CLOSED ∧
    ∀ (h : Fin 24) (m : Fin 60),
      usMarketState h.val m.val =
        (if 240 ≤ 60 * h.val + m.val ∧ 60 * h.val + m.val < 570 then .PRE
         else if 570 ≤ 60 * h.val + m.val ∧ 60 * h.val + m.val < 960 then .REGULAR
         else if 960 ≤ 60 * h.val + m.val ∧ 60 * h.val + m.val < 1200 then .POST
         else .CLOSED) := by
  refine ⟨by decide, by decide, by decide, by decide, ?_⟩
  decide

/-- C9 counterexample: an existing but unreadable cache file does not
degrade to an empty cache; the open() call sits outside the try block, so
startup raises (a fatal error), refuting the claim that no cache-file
condition is fatal. -/
theorem unreadable_cache_file_fatal_cx :
    loadCache ([] : List (PyStr × CacheEntry Nat)) (fun _ => none) .unreadable = .error ()
    ∧ loadCache ([] : List (PyStr × CacheEntry Nat)) (fun _ => none) .unreadable
        ≠ .ok [] := by
  exact ⟨rfl, by simp [loadCache]⟩

/-- C9 (amended): a missing cache file and a corrupt (unparseable JSON)
cache file both degrade to the empty cache, but an existing unreadable
file raises out of startup. -/
theorem cache_load_degradation {C : Type} (emptyCache : C) (parse : PyStr → Option C)
    (s : PyStr) (hcorrupt : parse s = none) :
    loadCache emptyCache parse .missing = .ok emptyCache
    ∧ loadCache emptyCache parse (.content s) = .ok emptyCache
    ∧ loadCache emptyCache parse .unreadable = .error () := by
  refine ⟨rfl, ?_, rfl⟩
  simp [loadCache, hcorrupt]

/-- C9 witness: the amended degradation behavior at a concrete corrupt
cache file. -/
theorem cache_load_degradation_witness :
    loadCache (0 : Nat) (fun _ => none) .missing = .ok 0
    ∧ loadCache (0 : Nat) (fun _ => none) (.content "not json".data) = .ok 0
    ∧ loadCache (0 : Nat) (fun _ => none) .unreadable = .error () :=
  cache_load_degradation 0 (fun _ => none) "not json".data rfl

/-- C3 (confirmed): the fallback orchestrator tries providers in priority
order and returns the first truthy success immediately, invoking exactly
the prefix of providers up to and including the first successful one; the
real-time orchestrator likewise never invokes FMP once yfinance
succeeds. -/
theorem fallback_first_success_short_circuits
    (env : PyStr → SourceOutcome) (pre post : List PyStr) (s : PyStr)
    (pts : List HistoricalPoint)
    (hpre : ∀ p ∈ pre, truthyResult (env p) = none)
    (hs : truthyResult (env s) = some pts) :
    (runSources env (pre ++ s :: post)).result = some pts
    ∧ (runSources env (pre ++ s :: post)).invoked = pre ++ [s]
    ∧ ∀ (symbol : PyStr) (yfEnv : YfEnv) (q : Quote) (fmpData : List FmpQuoteRaw),
        fetch_real_time_quote_yfinance symbol yfEnv = some q →
        fetch_real_time_quote true symbol (some yfEnv) fmpData = (some (.yf q), false) := by
  have hmain : ∀ pre2, (∀ p ∈ pre2, truthyResult (env p) = none) →
      (runSources env (pre2 ++ s :: post)).result = some pts
      ∧ (runSources env (pre2 ++ s :: post)).invoked = pre2 ++ [s] := by
    intro pre2
    induction pre2 with
    | nil =>
      intro _
      simp only [List.nil_append]
      unfold runSources
      rw [hs]
      exact ⟨rfl, rfl⟩
    | cons p rest ih =>
      intro hp
      have hphead := hp p (List.mem_cons_self _ _)
      have ihr := ih (fun x hx => hp x (List.mem_cons_of_mem _ hx))
      simp only [List.cons_append]
      unfold runSources
      rw [hphead]
      dsimp only
      exact ⟨ihr.1, by rw [ihr.2]⟩
  refine ⟨(hmain pre hpre).1, (hmain pre hpre).2, ?_⟩
  intro symbol yfEnv q fmpData hq
  simp [fetch_real_time_quote, hq]

/-- C3 witness: with yfinance failing and FMP succeeding, the historical
orchestrator stops at FMP and never invokes the later providers. -/
theorem fallback_first_success_short_circuits_witness :
    (runSources
        (fun s => if s = srcFmp
          then .ret (some [{ timestamp := 0, symbol := "AAPL".data, price := 1,
                             previousClose := 1 }])
          else .ret none)
        [srcYfinance, srcFmp, srcTwelvedata]).result
      = some [{ timestamp := 0, symbol := "AAPL".data, price := 1, previousClose := 1 }]
    ∧ (runSources
        (fun s => if s = srcFmp
          then .ret (some [{ timestamp := 0, symbol := "AAPL".data, price := 1,
                             previousClose := 1 }])
          else .ret none)
        [srcYfinance, srcFmp, srcTwelvedata]).invoked
      = [srcYfinance, srcFmp] := by
  have h := fallback_first_success_short_circuits
    (fun s => if s = srcFmp
      then .ret (some [{ timestamp := 0, symbol := "AAPL".data, price := 1,
                         previousClose := 1 }])
      else .ret none)
    [srcYfinance] [srcTwelvedata] srcFmp
    [{ timestamp := 0, symbol := "AAPL".data, price := 1, previousClose := 1 }]
    (by decide) (by decide)
  exact ⟨h.1, h.2.1⟩

/-- Environment for the C4 counterexample: FMP raises a rate-limit
exception, Stooq raises a no-data exception, the other providers return
None. -/
def envCx4 : PyStr → SourceOutcome :=
  fun s =>
    if s = srcFmp then .exc .RateLimited
    else if s = srcStooq then .exc .NoData
    else .ret none

/-- C4 counterexample: with a two-provider priority list failing with
RateLimited then NoData, the orchestrator does not aggregate to the
higher-precedence RateLimited: it returns None and main reports NO_DATA
(the recorded last error, itself NoData rather than RateLimited, is
discarded by the final pass branch of fetch_historical_data). -/
theorem exhaustion_reports_nodata_cx :
    fetch_historical_data envCx4 (some [srcFmp, srcStooq]) = none
    ∧ mainHistoricalOutput (fetch_historical_data envCx4 (some [srcFmp, srcStooq]))
        = .error .NO_DATA
    ∧ (runSources envCx4 (validSources [srcFmp, srcStooq])).lastError = some .NoData
    ∧ ErrCode.NO_DATA ≠ ErrCode.RATE_LIMIT :=
  ⟨by decide, by rw [show fetch_historical_data envCx4 (some [srcFmp, srcStooq]) = none
      from by decide]; rfl, by decide, by decide⟩

/-- C4 (amended): when every provider in the list fails, the orchestrator
invokes them all, returns None, and the failure surfaced by main is
always NO_DATA, regardless of the individual failure kinds. -/
theorem exhaustion_returns_none_nodata (env : PyStr → SourceOutcome)
    (sources : List PyStr)
    (hfail : ∀ s ∈ sources, truthyResult (env s) = none) :
    (runSources env sources).result = none
    ∧ (runSources env sources).invoked = sources
    ∧ mainHistoricalOutput (runSources env sources).result = .error .NO_DATA := by
  have hmain : ∀ l, (∀ s ∈ l, truthyResult (env s) = none) →
      (runSources env l).result = none ∧ (runSources env l).invoked = l := by
    intro l
    induction l with
    | nil => intro _; exact ⟨rfl, rfl⟩
    | cons a rest ih =>
      intro hl
      have ha := hl a (List.mem_cons_self _ _)
      have ihr := ih (fun x hx => hl x (List.mem_cons_of_mem _ hx))
      unfold runSources
      rw [ha]
      dsimp only
      exact ⟨ihr.1, by rw [ihr.2]⟩
  have h := hmain sources hfail
  refine ⟨h.1, h.2, ?_⟩
  rw [h.1]
  rfl

/-- C4 witness: the amended exhaustion behavior on the default provider
list with every provider returning None. -/
theorem exhaustion_returns_none_nodata_witness :
    (runSources (fun _ => SourceOutcome.ret none) (validSources [])).result = none
    ∧ (runSources (fun _ => SourceOutcome.ret none) (validSources [])).invoked
        = validSources []
    ∧ mainHistoricalOutput
        (runSources (fun _ => SourceOutcome.ret none) (validSources [])).result
      = .error .NO_DATA :=
  exhaustion_returns_none_nodata _ _ (by decide)

/-- C5 (confirmed): get_cached returns None exactly when the entry is
absent or its age reaches the 300s TTL (over well-formed cache states:
every entry carries a positive capture timestamp no later than now and a
stored quote), and a symbol served from a fresh cache entry is filtered
out of symbols_to_fetch and is never among the symbols for which
fetch_batch invokes the provider chain. -/
theorem cache_fresh_hit_skips_providers {Q : Type}
    (cache : List (PyStr × CacheEntry Q)) (now : Int) (symbol : PyStr)
    (chain : PyStr → ChainOutcome Q) (symbols : List PyStr)
    (hwf : ∀ p ∈ cache, ∃ ts q, p.2.timestamp = some ts ∧ 0 < ts ∧ ts ≤ now
      ∧ p.2.result = some q) :
    (get_cached cache now symbol = none ↔
      dictGet cache symbol = none ∨
        ∃ e ts, dictGet cache symbol = some e ∧ e.timestamp = some ts ∧ 300 ≤ now - ts)
    ∧ ∀ q, get_cached cache now symbol = some q →
        symbol ∉ symbolsToFetch cache now symbols
        ∧ symbol ∉ (fetch_batch chain now (symbolsToFetch cache now symbols) cache).invoked := by
  constructor
  · cases hd : dictGet cache symbol with
    | none =>
      unfold get_cached
      rw [hd]
      simp
    | some e =>
      obtain ⟨ts, q0, hts, hpos, hlenow, hres⟩ := hwf (symbol, e) (dictGet_mem _ _ _ hd)
      have hts2 : e.timestamp = some ts := hts
      have hres2 : e.result = some q0 := hres
      unfold get_cached
      rw [hd]
      dsimp only
      rw [hts2]
      dsimp only
      rw [hres2]
      constructor
      · intro h
        by_cases hcond : ts ≠ 0 ∧ now - ts < 300
        · rw [if_pos hcond] at h
          exact Option.noConfusion h
        · refine Or.inr ⟨e, ts, rfl, hts, ?_⟩
          omega
      · intro h
        rcases h with h | ⟨e2, ts2, he2, hts3, hage⟩
        · exact Option.noConfusion h
        · have he : e = e2 := Option.some.inj he2
          subst he
          rw [hts2] at hts3
          have hts4 : ts = ts2 := Option.some.inj hts3
          subst hts4
          have hnc : ¬(ts ≠ 0 ∧ now - ts < 300) := by omega
          rw [if_neg hnc]
  · intro q hq
    have hnotin : symbol ∉ symbolsToFetch cache now symbols := by
      intro hmem
      rw [symbolsToFetch, List.mem_filter] at hmem
      rw [hq] at hmem
      simp at hmem
    refine ⟨hnotin, ?_⟩
    intro hinv
    unfold fetch_batch at hinv
    rcases fetch_batch_foldl_invoked chain now _ _ _ hinv with h | h
    · simp at h
    · exact hnotin h

/-- C5 witness: a concrete fresh cache entry is served and its symbol is
never handed to the provider chain. -/
theorem cache_fresh_hit_skips_providers_witness :
    get_cached [("AAPL".data,
        ({ timestamp := some 100, result := some 7 } : CacheEntry Nat))] 200 "AAPL".data
      = some 7
    ∧ "AAPL".data ∉ symbolsToFetch
        [("AAPL".data, ({ timestamp := some 100, result := some 7 } : CacheEntry Nat))]
        200 ["AAPL".data]
    ∧ "AAPL".data ∉ (fetch_batch (fun _ => ChainOutcome.ok (none : Option Nat)) 200
        (symbolsToFetch
          [("AAPL".data, ({ timestamp := some 100, result := some 7 } : CacheEntry Nat))]
          200 ["AAPL".data])
        [("AAPL".data, ({ timestamp := some 100, result := some 7 } : CacheEntry Nat))]).invoked := by
  have h := cache_fresh_hit_skips_providers
    [("AAPL".data, ({ timestamp := some 100, result := some 7 } : CacheEntry Nat))]
    200 "AAPL".data (fun _ => ChainOutcome.ok (none : Option Nat)) ["AAPL".data]
    (by
      intro p hp
      simp only [List.mem_singleton] at hp
      subst hp
      exact ⟨100, 7, rfl, by norm_num, by norm_num, rfl⟩)
  have h2 := h.2 7 (by decide)
  exact ⟨by decide, h2.1, h2.2⟩

/-- C10 (confirmed): fetch_batch produces a results entry for every
requested symbol, and a symbol whose chain call raises (and that has no
fresh cache entry) is recorded as None without aborting the others. -/
theorem fetch_batch_total_per_symbol {Q : Type} (chain : PyStr → ChainOutcome Q)
    (now : Int) (symbols : List PyStr) (cache : List (PyStr × CacheEntry Q)) :
    (∀ s ∈ symbols, ∃ v, dictGet (fetch_batch chain now symbols cache).results s = some v)
    ∧ ∀ s ∈ symbols, chain s = .exc → get_cached cache now s = none →
        dictGet (fetch_batch chain now symbols cache).results s = some none := by
  constructor
  · intro s hs
    unfold fetch_batch
    exact fetch_batch_foldl_total chain now symbols _ s (Or.inr hs)
  · intro s hs hexc hc
    unfold fetch_batch
    exact fetch_batch_foldl_exc chain now s hexc symbols _ hc (Or.inl hs)

/-- C10 witness: a concrete batch where the first symbol's chain raises;
its entry is recorded as None and the other symbol still gets an entry. -/
theorem fetch_batch_total_per_symbol_witness :
    dictGet (fetch_batch
        (fun s => if s = "AAPL".data then ChainOutcome.exc else ChainOutcome.ok (some 3))
        0 ["AAPL".data, "MSFT".data] []).results "AAPL".data = some none
    ∧ dictGet (fetch_batch
        (fun s => if s = "AAPL".data then ChainOutcome.exc else ChainOutcome.ok (some 3))
        0 ["AAPL".data, "MSFT".data] []).results "MSFT".data = some (some 3) := by
  have h := fetch_batch_total_per_symbol
    (fun s => if s = "AAPL".data then ChainOutcome.exc else ChainOutcome.ok (some 3))
    0 ["AAPL".data, "MSFT".data] []
  refine ⟨h.2 "AAPL".data (by decide) (by decide) (by decide), by decide⟩

/-- C6 (amended): fetch_batch itemizes a mixed batch per symbol (a
Success entry for A, a None entry for B, never all-or-nothing), but the
multi-symbol JSON output assembled by main silently omits the failed
symbol instead of emitting a failure entry for it. -/
theorem batch_itemized_but_output_omits_failures {Q : Type}
    (chain : PyStr → ChainOutcome Q) (now : Int) (cache : List (PyStr × CacheEntry Q))
    (A B : PyStr) (qa : Q) (hAB : A ≠ B)
    (hA : get_cached cache now A = none) (hB : get_cached cache now B = none)
    (hcA : chain A = .ok (some qa)) (hcB : chain B = .ok none) :
    (fetch_batch chain now [A, B] cache).results = [(A, some qa), (B, none)]
    ∧ mainJsonResults [A, B] (fetch_batch chain now [A, B] cache).results = [(A, qa)] := by
  have h1 : fetch_batch_step chain now
      { results := [], cache := cache, invoked := [] } A
      = { results := [(A, some qa)], cache := set_cache cache now A qa,
          invoked := [A] } := by
    unfold fetch_batch_step
    dsimp only
    rw [hA, hcA]
    rfl
  have hcacheB : get_cached (set_cache cache now A qa) now B = none := by
    rw [get_cached_set_cache_other _ _ _ _ _ _ hAB]
    exact hB
  have h2 : fetch_batch_step chain now
      { results := [(A, some qa)], cache := set_cache cache now A qa, invoked := [A] } B
      = { results := [(A, some qa), (B, none)], cache := set_cache cache now A qa,
          invoked := [A, B] } := by
    unfold fetch_batch_step
    dsimp only
    rw [hcacheB, hcB]
    simp [dictSet, hAB]
  have hres : (fetch_batch chain now [A, B] cache).results
      = [(A, some qa), (B, none)] := by
    unfold fetch_batch
    rw [List.foldl_cons, h1, List.foldl_cons, h2, List.foldl_nil]
  refine ⟨hres, ?_⟩
  rw [hres]
  simp [mainJsonResults, dictGet, hAB]

/-- Chain for the C6 counterexample: the first symbol succeeds with the
payload 1, every other symbol's chain is exhausted and returns None. -/
def chainCx6 : PyStr → ChainOutcome Nat :=
  fun s => if s = "AAPL".data then .ok (some 1) else .ok none

/-- C6 counterexample: for the batch [AAPL, MSFT] where AAPL succeeds and
MSFT's chain is exhausted, fetch_batch itemizes both, but the JSON output
printed by main contains only the AAPL quote and no entry at all for
MSFT — the failed symbol is silently omitted, refuting the claim that the
returned result set never omits it. -/
theorem main_json_omits_failed_symbol_cx :
    (fetch_batch chainCx6 0 ["AAPL".data, "MSFT".data] []).results
      = [("AAPL".data, some 1), ("MSFT".data, none)]
    ∧ mainJsonResults ["AAPL".data, "MSFT".data]
        (fetch_batch chainCx6 0 ["AAPL".data, "MSFT".data] []).results
      = [("AAPL".data, 1)]
    ∧ (mainJsonResults ["AAPL".data, "MSFT".data]
        (fetch_batch chainCx6 0 ["AAPL".data, "MSFT".data] []).results).filter
          (fun p => decide (p.1 = "MSFT".data)) = [] := by decide

/-- C6 witness: the amended itemization-and-omission behavior at a
concrete batch. -/
theorem batch_itemized_but_output_omits_failures_witness :
    (fetch_batch (fun s => if s = "X".data then ChainOutcome.ok (some 5)
        else ChainOutcome.ok (none : Option Nat)) 0 ["X".data, "Y".data] []).results
      = [("X".data, some 5), ("Y".data, none)]
    ∧ mainJsonResults ["X".data, "Y".data]
        (fetch_batch (fun s => if s = "X".data then ChainOutcome.ok (some 5)
          else ChainOutcome.ok (none : Option Nat)) 0 ["X".data, "Y".data] []).results
      = [("X".data, 5)] :=
  batch_itemized_but_output_omits_failures _ 0 [] "X".data "Y".data 5
    (by decide) (by decide) (by decide) (by decide) (by decide)

/-- C8 counterexample: when the daily history contains only the current
(possibly partial) day, the adapter falls back to that bar's CLOSE, not
its opening price: with a single today-bar of open 10 and close 20, the
returned previousClose is 20, refuting the claimed open-price fallback. -/
theorem previous_close_fallback_uses_close_cx :
    (fetch_real_time_quote_yfinance "AAPL".data
        { dailyHist := [{ date := 0, openPrice := 10, close := 20 }], today := 0,
          info := none, fastInfoLast := none, intradayLast := none,
          marketHour := 12, marketMinute := 0, now := 1000 }).map Quote.previousClose
      = some 20
    ∧ (20 : Price) ≠ 10 := by
  exact ⟨by decide, by decide⟩

/-- C8 (amended): previousClose is derived from the most recent daily bar
dated strictly before today whenever one exists; when the history holds
only current-or-later bars, the adapter falls back to the closing price
(not the opening price) of the most recent bar overall. -/
theorem previous_close_selection (hist : List DailyBar) (today : Int) (hne : hist ≠ []) :
    ((∃ b ∈ hist, b.date < today) →
      ∃ b ∈ hist, b.date < today ∧ (∀ x ∈ hist, x.date < today → x.date ≤ b.date)
        ∧ yfPreviousCloseRaw hist today = some b.close)
    ∧ ((∀ b ∈ hist, ¬ b.date < today) →
      ∃ b ∈ hist, (∀ x ∈ hist, x.date ≤ b.date)
        ∧ yfPreviousCloseRaw hist today = some b.close) := by
  have hperm := List.perm_insertionSort (fun a b : DailyBar => a.date ≤ b.date) hist
  have hsort : List.Pairwise (fun a b : DailyBar => a.date ≤ b.date)
      (hist.insertionSort (fun a b => a.date ≤ b.date)) :=
    List.sorted_insertionSort _ hist
  constructor
  · rintro ⟨b0, hb0, hlt0⟩
    have hb0s : b0 ∈ hist.insertionSort (fun a b => a.date ≤ b.date) :=
      hperm.mem_iff.mpr hb0
    have hmemf : b0 ∈ (hist.insertionSort (fun a b => a.date ≤ b.date)).filter
        (fun b => decide (b.date < today)) :=
      List.mem_filter.mpr ⟨hb0s, by simpa using hlt0⟩
    have hfil_ne : (hist.insertionSort (fun a b => a.date ≤ b.date)).filter
        (fun b => decide (b.date < today)) ≠ [] := by
      intro hnil
      rw [hnil] at hmemf
      simp at hmemf
    obtain ⟨b, hlast⟩ : ∃ b, ((hist.insertionSort (fun a b => a.date ≤ b.date)).filter
        (fun b => decide (b.date < today))).getLast? = some b := by
      cases hc : ((hist.insertionSort (fun a b => a.date ≤ b.date)).filter
          (fun b => decide (b.date < today))).getLast? with
      | none =>
        have := List.getLast?_isSome.mpr hfil_ne
        rw [hc] at this
        simp at this
      | some b => exact ⟨b, rfl⟩
    have hbmemf := getLast?_mem_self _ _ hlast
    have hbmem : b ∈ hist.insertionSort (fun a b => a.date ≤ b.date) :=
      (List.mem_filter.mp hbmemf).1
    have hbdate : b.date < today := by
      have := (List.mem_filter.mp hbmemf).2
      simpa using this
    refine ⟨b, hperm.mem_iff.mp hbmem, hbdate, ?_, ?_⟩
    · intro x hx hxlt
      have hxf : x ∈ (hist.insertionSort (fun a b => a.date ≤ b.date)).filter
          (fun b => decide (b.date < today)) :=
        List.mem_filter.mpr ⟨hperm.mem_iff.mpr hx, by simpa using hxlt⟩
      exact sorted_le_getLast DailyBar.date _ b (hsort.filter _) hlast x hxf
    · unfold yfPreviousCloseRaw
      rw [if_neg hne]
      dsimp only
      rw [hlast]
  · intro hall
    have hfil : (hist.insertionSort (fun a b => a.date ≤ b.date)).filter
        (fun b => decide (b.date < today)) = [] := by
      rw [List.filter_eq_nil_iff]
      intro a ha
      simpa using hall a (hperm.mem_iff.mp ha)
    have hsne : hist.insertionSort (fun a b => a.date ≤ b.date) ≠ [] := by
      intro h0
      apply hne
      rw [h0] at hperm
      exact List.perm_nil.mp hperm.symm
    obtain ⟨b, hlast⟩ : ∃ b, (hist.insertionSort (fun a b => a.date ≤ b.date)).getLast?
        = some b := by
      cases hc : (hist.insertionSort (fun a b => a.date ≤ b.date)).getLast? with
      | none =>
        have := List.getLast?_isSome.mpr hsne
        rw [hc] at this
        simp at this
      | some b => exact ⟨b, rfl⟩
    refine ⟨b, hperm.mem_iff.mp (getLast?_mem_self _ _ hlast), ?_, ?_⟩
    · intro x hx
      exact sorted_le_getLast DailyBar.date _ b hsort hlast x (hperm.mem_iff.mpr hx)
    · unfold yfPreviousCloseRaw
      rw [if_neg hne]
      dsimp only
      rw [hfil, hlast]
      rfl

/-- C8 witness: the amended selection at concrete histories — a prior-day
bar is preferred, and a today-only history falls back to its close. -/
theorem previous_close_selection_witness :
    yfPreviousCloseRaw [{ date := 0, openPrice := 1, close := 2 },
      { date := 1, openPrice := 3, close := 4 }] 1 = some 2
    ∧ yfPreviousCloseRaw [{ date := 5, openPrice := 7, close := 9 }] 3 = some 9 := by
  constructor
  · have h := (previous_close_selection
      [{ date := 0, openPrice := 1, close := 2 }, { date := 1, openPrice := 3, close := 4 }]
      1 (by decide)).1 ⟨{ date := 0, openPrice := 1, close := 2 }, by decide, by decide⟩
    obtain ⟨b, hb, hblt, _, heq⟩ := h
    have hb2 : b = { date := 0, openPrice := 1, close := 2 } := by
      rcases List.mem_cons.mp hb with h1 | h1
      · exact h1
      · exfalso
        simp only [List.mem_singleton] at h1
        subst h1
        exact absurd hblt (by decide)
    rw [hb2] at heq
    exact heq
  · have h := (previous_close_selection [{ date := 5, openPrice := 7, close := 9 }] 3
      (by decide)).2 (by decide)
    obtain ⟨b, hb, _, heq⟩ := h
    have hb2 : b = { date := 5, openPrice := 7, close := 9 } := by
      simpa using hb
    rw [hb2] at heq
    exact heq

/-- Raw previous-close stream of the yfinance historical loop, read off
the source before any minor-unit conversion: the first row contributes
its own open, every later row the prior row's raw close. -/
def yfRawPrevCloses : Option Price → List YfRow → List Price
  | _, [] => []
  | none, r :: rest => r.openPrice :: yfRawPrevCloses (some r.close) rest
  | some p, r :: rest => p :: yfRawPrevCloses (some r.close) rest

theorem yfHistAux_map_prevClose (symbol : PyStr) (conv : Price → Price) (l : List YfRow) :
    ∀ prevRaw, (yfHistAux symbol conv prevRaw l).map HistoricalPoint.previousClose
      = (yfRawPrevCloses prevRaw l).map conv := by
  induction l with
  | nil => intro prevRaw; cases prevRaw <;> rfl
  | cons r rest ih =>
    intro prevRaw
    cases prevRaw <;> simp [yfHistAux, yfRawPrevCloses, ih]

/-- C1 counterexample: for the minor-unit symbol AV.L the Twelve Data
historical adapter returns the raw provider close unconverted — the
output price equals the raw 250, not 250 / 100. -/
theorem twelvedata_leaves_lse_unconverted_cx :
    (fetch_historical_data_twelvedata "AV.L".data
        [{ timestamp := 0, close := 250 }]).map HistoricalPoint.price = [250]
    ∧ endsDotL "AV.L".data = true
    ∧ (250 : Price) ≠ 250 / 100 := by
  refine ⟨by decide, by decide, by norm_num⟩

/-- C1 (amended): minor-unit conversion is adapter-specific rather than
uniform. The FMP quote and historical adapters divide every price field
by 100 exactly once whenever the canonical ticker ends in .L — which
covers .L symbols in general and .LON symbols via canonicalization; the
yfinance quote, historical and OHLC adapters divide every price field
exactly once for symbols ending in .L but leave .LON symbols entirely
unconverted; the Stooq adapter divides exactly once for both .L and .LON
symbols; the Twelve Data historical adapter performs no conversion at all
and returns raw provider prices. -/
theorem minor_unit_conversion_per_adapter :
    (∀ (symbol : PyStr) (values : List TDEntry),
      (fetch_historical_data_twelvedata symbol values).map HistoricalPoint.price
        = values.map TDEntry.close)
    ∧ (∀ (symbol : PyStr) (rows : List StooqRow) (l : List HistoricalPoint),
        (endsDotL symbol || endsDotLON symbol) = true →
        fetch_historical_data_stooq symbol rows = some l →
        l.map HistoricalPoint.price = rows.reverse.map (fun r => r.close / 100))
    ∧ (∀ (symbol : PyStr) (rows : List YfRow) (l : List HistoricalPoint),
        endsDotL symbol = true →
        fetch_historical_data_yfinance symbol rows = some l →
        l.map HistoricalPoint.price = rows.map (fun r => r.close / 100)
        ∧ l.map HistoricalPoint.previousClose
            = (yfRawPrevCloses none rows).map (fun p => p / 100))
    ∧ (∀ (symbol : PyStr) (rows : List YfRow) (l : List HistoricalPoint),
        endsDotL symbol = false →
        fetch_historical_data_yfinance symbol rows = some l →
        l.map HistoricalPoint.price = rows.map (fun r => r.close))
    ∧ (endsDotLON "AV.LON".data = true ∧ endsDotL "AV.LON".data = false)
    ∧ (∀ symbol : PyStr, endsDotL symbol = true →
        endsWithDotL (handle_lse_symbol symbol) = true)
    ∧ endsWithDotL (handle_lse_symbol "av.lon".data) = true
    ∧ (∀ (symbol : PyStr) (entries : List FmpEntry),
        endsWithDotL (handle_lse_symbol symbol) = true →
        ∀ p ∈ fetch_historical_data_fmp symbol entries,
          ∃ e ∈ entries, p.timestamp = e.timestamp ∧ p.price = e.close / 100
            ∧ p.previousClose = (e.openPrice.getD e.close) / 100)
    ∧ (∀ (symbol : PyStr) (raw : FmpQuoteRaw) (rest : List FmpQuoteRaw) (q : FmpQuote),
        endsWithDotL (handle_lse_symbol symbol) = true →
        fetch_real_time_quote_fmp symbol (raw :: rest) = some q →
        q.price = raw.price / 100 ∧ q.previousClose = raw.previousClose / 100)
    ∧ (∀ (symbol : PyStr) (env : YfEnv) (q : Quote),
        endsDotL symbol = true →
        fetch_real_time_quote_yfinance symbol env = some q →
        (∃ p0, yfPreviousCloseRaw env.dailyHist env.today = some p0
          ∧ q.previousClose = p0 / 100)
        ∧ q.preMarketPrice = (env.info.bind YfInfo.preMarketPrice).map (fun p => p / 100)
        ∧ q.postMarketPrice = (env.info.bind YfInfo.postMarketPrice).map (fun p => p / 100))
    ∧ (∀ (symbol : PyStr) (rows : List OhlcRow) (l : List OhlcPoint),
        endsDotL symbol = true →
        fetch_ohlc_data_yfinance symbol rows = some l →
        l.map OhlcPoint.openPrice = rows.map (fun r => r.openPrice / 100)
        ∧ l.map OhlcPoint.high = rows.map (fun r => r.high / 100)
        ∧ l.map OhlcPoint.low = rows.map (fun r => r.low / 100)
        ∧ l.map OhlcPoint.close = rows.map (fun r => r.close / 100)) := by
  refine ⟨?_, ?_, ?_, ?_, by decide, ?_, by decide, ?_, ?_, ?_, ?_⟩
  · intro symbol values
    unfold fetch_historical_data_twelvedata
    rw [fixPreviousClose_map_price, List.map_map]
    rfl
  · intro symbol rows l hlse hsome
    unfold fetch_historical_data_stooq at hsome
    dsimp only at hsome
    split at hsome
    · split at hsome
      · exact Option.noConfusion hsome
      · have hl := (Option.some.inj hsome).symm
        rw [hl, fixPreviousClose_map_price, List.map_map]
        rfl
    · next hc => exact absurd hlse hc
  · intro symbol rows l hl hsome
    unfold fetch_historical_data_yfinance at hsome
    by_cases hempty : rows = []
    · rw [if_pos hempty] at hsome
      exact Option.noConfusion hsome
    · rw [if_neg hempty] at hsome
      dsimp only at hsome
      have heq : l = yfHistAux symbol
          (fun p => if endsDotL symbol then p / 100 else p) none rows :=
        (Option.some.inj hsome).symm
      rw [heq, yfHistAux_map_price, yfHistAux_map_prevClose]
      simp [hl]
  · intro symbol rows l hl hsome
    unfold fetch_historical_data_yfinance at hsome
    by_cases hempty : rows = []
    · rw [if_pos hempty] at hsome
      exact Option.noConfusion hsome
    · rw [if_neg hempty] at hsome
      dsimp only at hsome
      have heq : l = yfHistAux symbol
          (fun p => if endsDotL symbol then p / 100 else p) none rows :=
        (Option.some.inj hsome).symm
      rw [heq, yfHistAux_map_price]
      simp [hl]
  · intro symbol hl
    unfold handle_lse_symbol
    rw [if_pos hl]
    exact hl
  · intro symbol entries hguard p hp
    unfold fetch_historical_data_fmp at hp
    dsimp only at hp
    have hp2 : p ∈ entries.map fun e =>
        ({ timestamp := e.timestamp, symbol := symbol,
           price := if endsWithDotL (handle_lse_symbol symbol) then e.close / 100
             else e.close,
           previousClose := if endsWithDotL (handle_lse_symbol symbol)
             then (e.openPrice.getD e.close) / 100
             else e.openPrice.getD e.close } : HistoricalPoint) :=
      (List.perm_insertionSort _ _).mem_iff.mp hp
    obtain ⟨e, he, hfe⟩ := List.mem_map.mp hp2
    refine ⟨e, he, ?_⟩
    rw [← hfe]
    simp [hguard]
  · intro symbol raw rest q hguard hq
    unfold fetch_real_time_quote_fmp at hq
    dsimp only at hq
    split at hq
    · exact Option.noConfusion hq
    · have heq := (Option.some.inj hq).symm
      rw [heq]
      simp [hguard]
  · intro symbol env q hl hq
    unfold fetch_real_time_quote_yfinance at hq
    cases hpc : yfPreviousCloseRaw env.dailyHist env.today with
    | none =>
      rw [hpc] at hq
      exact Option.noConfusion hq
    | some p0 =>
      rw [hpc] at hq
      dsimp only at hq
      have heq := (Option.some.inj hq).symm
      rw [heq]
      refine ⟨⟨p0, rfl, by simp [hl]⟩, ?_, ?_⟩
      · simp [hl]
      · simp [hl]
  · intro symbol rows l hl hsome
    unfold fetch_ohlc_data_yfinance at hsome
    by_cases hempty : rows = []
    · rw [if_pos hempty] at hsome
      exact Option.noConfusion hsome
    · rw [if_neg hempty] at hsome
      dsimp only at hsome
      have heq := (Option.some.inj hsome).symm
      rw [heq]
      refine ⟨?_, ?_, ?_, ?_⟩ <;> simp [hl, List.map_map]

/-- C1 witness: the per-adapter conversion behavior at concrete
minor-unit inputs — Stooq and the yfinance adapters divide .L prices
once, yfinance leaves a .LON symbol unconverted, and the FMP adapters
divide the canonicalized .LON symbol once. -/
theorem minor_unit_conversion_per_adapter_witness :
    ([({ timestamp := 0, symbol := "AV.L".data, price := 100 / 100,
         previousClose := 100 / 100 } : HistoricalPoint)].map HistoricalPoint.price
      = [({ timestamp := 0, close := 100 } : StooqRow)].reverse.map (fun r => r.close / 100))
    ∧ ([({ timestamp := 0, symbol := "AV.L".data, price := 100 / 100,
           previousClose := 10 / 100 } : HistoricalPoint)].map HistoricalPoint.price
        = [({ timestamp := 0, openPrice := 10, close := 100 } : YfRow)].map
            (fun r => r.close / 100))
    ∧ ([({ timestamp := 0, symbol := "AV.LON".data, price := 100,
           previousClose := 10 } : HistoricalPoint)].map HistoricalPoint.price
        = [({ timestamp := 0, openPrice := 10, close := 100 } : YfRow)].map
            (fun r => r.close))
    ∧ endsWithDotL (handle_lse_symbol "av.l".data) = true
    ∧ ({ timestamp := 0, symbol := "AV.LON".data, price := 100 / 100,
         previousClose := 40 / 100 } : HistoricalPoint).previousClose
        = (({ timestamp := 0, close := 100, openPrice := some 40 } : FmpEntry).openPrice.getD
            ({ timestamp := 0, close := 100, openPrice := some 40 } : FmpEntry).close) / 100
    ∧ ({ symbol := "av.lon".data, price := 200 / 100, previousClose := 100 / 100,
         timestamp := 5 } : FmpQuote).price
        = ({ price := 200, previousClose := 100, timestamp := 5 } : FmpQuoteRaw).price / 100
    ∧ ({ symbol := "AV.L".data, price := 200 / 100, regularMarketPrice := 200 / 100,
         previousClose := 200 / 100, preMarketPrice := none, postMarketPrice := none,
         preMarketTime := none, postMarketTime := none, marketState := .REGULAR,
         timestamp := 50 } : Quote).previousClose = (200 : Price) / 100
    ∧ ([({ timestamp := 0, symbol := "AV.L".data, openPrice := 100 / 100,
           high := 200 / 100, low := 300 / 100, close := 400 / 100,
           volume := 5 } : OhlcPoint)].map OhlcPoint.close
        = [({ timestamp := 0, openPrice := 100, high := 200, low := 300, close := 400,
              volume := 5 } : OhlcRow)].map (fun r => r.close / 100)) := by
  obtain ⟨_, h2, h3, h4, _, h6, _, h8, h9, h10, h11⟩ := minor_unit_conversion_per_adapter
  refine ⟨?_, ?_, ?_, ?_, ?_, ?_, ?_, ?_⟩
  · exact h2 "AV.L".data [{ timestamp := 0, close := 100 }]
      [{ timestamp := 0, symbol := "AV.L".data, price := 100 / 100,
         previousClose := 100 / 100 }] (by decide) rfl
  · exact (h3 "AV.L".data [{ timestamp := 0, openPrice := 10, close := 100 }]
      [{ timestamp := 0, symbol := "AV.L".data, price := 100 / 100,
         previousClose := 10 / 100 }] (by decide) rfl).1
  · exact h4 "AV.LON".data [{ timestamp := 0, openPrice := 10, close := 100 }]
      [{ timestamp := 0, symbol := "AV.LON".data, price := 100, previousClose := 10 }]
      (by decide) rfl
  · exact h6 "av.l".data (by decide)
  · have hmem : ({ timestamp := 0, symbol := "AV.LON".data, price := 100 / 100,
                   previousClose := 40 / 100 } : HistoricalPoint)
          ∈ fetch_historical_data_fmp "AV.LON".data
              [{ timestamp := 0, close := 100, openPrice := some 40 }] := by
      rw [show fetch_historical_data_fmp "AV.LON".data
            [{ timestamp := 0, close := 100, openPrice := some 40 }]
          = [{ timestamp := 0, symbol := "AV.LON".data, price := 100 / 100,
               previousClose := 40 / 100 }] from rfl]
      exact List.mem_singleton_self _
    obtain ⟨e, he, _, _, hprev⟩ := h8 "AV.LON".data
      [{ timestamp := 0, close := 100, openPrice := some 40 }] (by decide) _ hmem
    have he2 : e = { timestamp := 0, close := 100, openPrice := some 40 } := by
      simpa using he
    rw [he2] at hprev
    exact hprev
  · exact (h9 "av.lon".data { price := 200, previousClose := 100, timestamp := 5 } []
      { symbol := "av.lon".data, price := 200 / 100, previousClose := 100 / 100,
        timestamp := 5 } (by decide) rfl).1
  · have h := h10 "AV.L".data
      { dailyHist := [{ date := 0, openPrice := 100, close := 200 }], today := 1,
        info := none, fastInfoLast := none, intradayLast := none,
        marketHour := 12, marketMinute := 0, now := 50 }
      { symbol := "AV.L".data, price := 200 / 100, regularMarketPrice := 200 / 100,
        previousClose := 200 / 100, preMarketPrice := none, postMarketPrice := none,
        preMarketTime := none, postMarketTime := none, marketState := .REGULAR,
        timestamp := 50 } (by decide) rfl
    obtain ⟨⟨p0, hp0, hprev⟩, _, _⟩ := h
    have hp2 : (200 : Price) = p0 := Option.some.inj hp0
    rw [← hp2] at hprev
  · exact (h11 "AV.L".data
      [{ timestamp := 0, openPrice := 100, high := 200, low := 300, close := 400,
         volume := 5 }]
      [{ timestamp := 0, symbol := "AV.L".data, openPrice := 100 / 100,
         high := 200 / 100, low := 300 / 100, close := 400 / 100, volume := 5 }]
      (by decide) rfl).2.2.2

theorem fixPreviousClose_head_self (l0 : List HistoricalPoint) (pt : HistoricalPoint)
    (h : (fixPreviousClose l0).head? = some pt) : pt.previousClose = pt.price := by
  cases l0 with
  | nil => simp [fixPreviousClose] at h
  | cons p rest =>
    rw [fixPreviousClose_head] at h
    have h2 := Option.some.inj h
    rw [← h2]

/-- Shape of any successful Stooq fetch: the payload is the fixing loop
applied to the reversed rows under some per-row price map. -/
theorem stooq_shape (symbol : PyStr) (rows : List StooqRow) (l : List HistoricalPoint)
    (hsome : fetch_historical_data_stooq symbol rows = some l) :
    ∃ g : StooqRow → Price, l = fixPreviousClose (rows.reverse.map fun r =>
      ({ timestamp := r.timestamp, symbol := symbol, price := g r,
         previousClose := 0 } : HistoricalPoint)) := by
  unfold fetch_historical_data_stooq at hsome
  dsimp only at hsome
  split at hsome
  · split at hsome
    · exact Option.noConfusion hsome
    · exact ⟨fun r => r.close / 100, (Option.some.inj hsome).symm⟩
  · split at hsome
    · exact Option.noConfusion hsome
    · exact ⟨fun r => r.close, (Option.some.inj hsome).symm⟩

/-- C2 counterexample: the FMP historical adapter sets each point's
previousClose to the bar's own open, not the prior point's price: on two
bars with open 7 close 10 and open 7 close 20, the second point's
previousClose is 7 while the first point's price is 10, refuting the
claimed series self-consistency. -/
theorem fmp_previous_close_not_prior_price_cx :
    fetch_historical_data_fmp "AAPL".data
        [{ timestamp := 1, close := 10, openPrice := some 5 },
         { timestamp := 2, close := 20, openPrice := some 7 }]
      = [{ timestamp := 1, symbol := "AAPL".data, price := 10, previousClose := 5 },
         { timestamp := 2, symbol := "AAPL".data, price := 20, previousClose := 7 }]
    ∧ ¬ List.Chain' (fun a b => b.previousClose = a.price)
        (fetch_historical_data_fmp "AAPL".data
          [{ timestamp := 1, close := 10, openPrice := some 5 },
           { timestamp := 2, close := 20, openPrice := some 7 }]) := by
  constructor
  · decide
  · intro hch
    rw [show fetch_historical_data_fmp "AAPL".data
          [{ timestamp := 1, close := 10, openPrice := some 5 },
           { timestamp := 2, close := 20, openPrice := some 7 }]
        = [{ timestamp := 1, symbol := "AAPL".data, price := 10, previousClose := 5 },
           { timestamp := 2, symbol := "AAPL".data, price := 20, previousClose := 7 }]
        from by decide] at hch
    rw [List.chain'_cons] at hch
    have h710 : (7 : Price) = 10 := hch.1
    norm_num at h710

/-- C2 (amended): the Twelve Data, Stooq and yfinance historical
adapters return self-consistent series (previousClose[i] = price[i-1] for
i>0, first point anchored to its own price, or its own open for
yfinance) whose timestamps are exactly the upstream rows' timestamps in
the order returned (reversed for Stooq), hence strictly ascending exactly
when the upstream rows are so ordered; the FMP adapter instead returns a
series sorted non-decreasingly by timestamp in which every point's
previousClose is its own bar's open (falling back to its close), not the
prior point's price. -/
theorem historical_series_invariants_per_adapter :
    (∀ (symbol : PyStr) (values : List TDEntry),
      List.Chain' (fun a b => b.previousClose = a.price)
        (fetch_historical_data_twelvedata symbol values)
      ∧ (fetch_historical_data_twelvedata symbol values).map HistoricalPoint.timestamp
          = values.map TDEntry.timestamp
      ∧ ∀ pt, (fetch_historical_data_twelvedata symbol values).head? = some pt →
          pt.previousClose = pt.price)
    ∧ (∀ (symbol : PyStr) (rows : List StooqRow) (l : List HistoricalPoint),
        fetch_historical_data_stooq symbol rows = some l →
        List.Chain' (fun a b => b.previousClose = a.price) l
        ∧ l.map HistoricalPoint.timestamp = rows.reverse.map StooqRow.timestamp
        ∧ ∀ pt, l.head? = some pt → pt.previousClose = pt.price)
    ∧ (∀ (symbol : PyStr) (rows : List YfRow) (l : List HistoricalPoint),
        fetch_historical_data_yfinance symbol rows = some l →
        List.Chain' (fun a b => b.previousClose = a.price) l
        ∧ l.map HistoricalPoint.timestamp = rows.map YfRow.timestamp
        ∧ ∀ pt r, l.head? = some pt → rows.head? = some r →
            pt.previousClose = (if endsDotL symbol then r.openPrice / 100 else r.openPrice))
    ∧ (∀ (symbol : PyStr) (entries : List FmpEntry),
        List.Pairwise (fun a b => a.timestamp ≤ b.timestamp)
          (fetch_historical_data_fmp symbol entries)
        ∧ ∀ p ∈ fetch_historical_data_fmp symbol entries,
            ∃ e ∈ entries, p.timestamp = e.timestamp
              ∧ p.previousClose =
                  (if endsWithDotL (handle_lse_symbol symbol)
                   then (e.openPrice.getD e.close) / 100
                   else e.openPrice.getD e.close)) := by
  refine ⟨?_, ?_, ?_, ?_⟩
  · intro symbol values
    refine ⟨?_, ?_, ?_⟩
    · unfold fetch_historical_data_twelvedata
      exact fixPreviousClose_chain _
    · unfold fetch_historical_data_twelvedata
      rw [fixPreviousClose_map_timestamp, List.map_map]
      rfl
    · intro pt hpt
      exact fixPreviousClose_head_self _ pt hpt
  · intro symbol rows l hsome
    obtain ⟨g, hl⟩ := stooq_shape symbol rows l hsome
    subst hl
    refine ⟨fixPreviousClose_chain _, ?_, ?_⟩
    · rw [fixPreviousClose_map_timestamp, List.map_map]
      rfl
    · intro pt hpt
      exact fixPreviousClose_head_self _ pt hpt
  · intro symbol rows l hsome
    unfold fetch_historical_data_yfinance at hsome
    split at hsome
    · exact Option.noConfusion hsome
    · next hne =>
      have hl := (Option.some.inj hsome).symm
      subst hl
      refine ⟨yfHistAux_chain _ _ _ _, ?_, ?_⟩
      · rw [yfHistAux_map_timestamp]
      · intro pt r hpt hr
        cases rows with
        | nil => exact Option.noConfusion hr
        | cons r0 rest =>
          have hr0 : r0 = r := Option.some.inj hr
          subst hr0
          have hpt0 := Option.some.inj hpt
          rw [← hpt0]
  · intro symbol entries
    constructor
    · unfold fetch_historical_data_fmp
      dsimp only
      exact List.sorted_insertionSort _ _
    · intro p hp
      unfold fetch_historical_data_fmp at hp
      dsimp only at hp
      have hp2 : p ∈ entries.map fun e =>
          ({ timestamp := e.timestamp, symbol := symbol,
             price := if endsWithDotL (handle_lse_symbol symbol) then e.close / 100
               else e.close,
             previousClose := if endsWithDotL (handle_lse_symbol symbol)
               then (e.openPrice.getD e.close) / 100
               else e.openPrice.getD e.close } : HistoricalPoint) :=
        (List.perm_insertionSort _ _).mem_iff.mp hp
      obtain ⟨e, he, hfe⟩ := List.mem_map.mp hp2
      refine ⟨e, he, ?_, ?_⟩
      · rw [← hfe]
      · rw [← hfe]

/-- C2 witness: the amended per-adapter invariants at concrete inputs —
a Stooq fetch and a yfinance fetch yield self-consistent ascending
series, and an FMP point carries its own bar's open as previousClose. -/
theorem historical_series_invariants_per_adapter_witness :
    List.Chain' (fun a b => b.previousClose = a.price)
      [({ timestamp := 1, symbol := "AAPL".data, price := 6, previousClose := 6 }
          : HistoricalPoint),
       { timestamp := 2, symbol := "AAPL".data, price := 7, previousClose := 6 }]
    ∧ [({ timestamp := 1, symbol := "AAPL".data, price := 6, previousClose := 6 }
          : HistoricalPoint),
       { timestamp := 2, symbol := "AAPL".data, price := 7, previousClose := 6 }].map
          HistoricalPoint.timestamp
        = ([{ timestamp := 2, close := 7 }, { timestamp := 1, close := 6 }]
            : List StooqRow).reverse.map StooqRow.timestamp
    ∧ List.Chain' (fun a b => b.previousClose = a.price)
      [({ timestamp := 1, symbol := "AAPL".data, price := 10, previousClose := 3 }
          : HistoricalPoint),
       { timestamp := 2, symbol := "AAPL".data, price := 20, previousClose := 10 }]
    ∧ ({ timestamp := 1, symbol := "AAPL".data, price := 10, previousClose := 3 }
          : HistoricalPoint).previousClose
        = (if endsDotL "AAPL".data
           then ({ timestamp := 1, openPrice := 3, close := 10 } : YfRow).openPrice / 100
           else ({ timestamp := 1, openPrice := 3, close := 10 } : YfRow).openPrice)
    ∧ ({ timestamp := 1, symbol := "AAPL".data, price := 10, previousClose := 5 }
          : HistoricalPoint).previousClose
        = (if endsWithDotL (handle_lse_symbol "AAPL".data)
           then (({ timestamp := 1, close := 10, openPrice := some 5 }
               : FmpEntry).openPrice.getD 10) / 100
           else ({ timestamp := 1, close := 10, openPrice := some 5 }
               : FmpEntry).openPrice.getD 10) := by
  obtain ⟨_, hstooq, hyf, hfmp⟩ := historical_series_invariants_per_adapter
  have hs := hstooq "AAPL".data [{ timestamp := 2, close := 7 }, { timestamp := 1, close := 6 }]
    [{ timestamp := 1, symbol := "AAPL".data, price := 6, previousClose := 6 },
     { timestamp := 2, symbol := "AAPL".data, price := 7, previousClose := 6 }] rfl
  have hy := hyf "AAPL".data
    [{ timestamp := 1, openPrice := 3, close := 10 },
     { timestamp := 2, openPrice := 4, close := 20 }]
    [{ timestamp := 1, symbol := "AAPL".data, price := 10, previousClose := 3 },
     { timestamp := 2, symbol := "AAPL".data, price := 20, previousClose := 10 }] rfl
  refine ⟨hs.1, hs.2.1, hy.1, ?_, ?_⟩
  · exact hy.2.2 _ { timestamp := 1, openPrice := 3, close := 10 } rfl rfl
  · have hmem : ({ timestamp := 1, symbol := "AAPL".data, price := 10, previousClose := 5 }
        : HistoricalPoint)
          ∈ fetch_historical_data_fmp "AAPL".data
              [{ timestamp := 1, close := 10, openPrice := some 5 }] := by
      rw [show fetch_historical_data_fmp "AAPL".data
            [{ timestamp := 1, close := 10, openPrice := some 5 }]
          = [{ timestamp := 1, symbol := "AAPL".data, price := 10, previousClose := 5 }]
          from by decide]
      exact List.mem_singleton_self _
    obtain ⟨e, he, _, hprev⟩ := (hfmp "AAPL".data
      [{ timestamp := 1, close := 10, openPrice := some 5 }]).2 _ hmem
    have he2 : e = { timestamp := 1, close := 10, openPrice := some 5 } := by
      simpa using he
    rw [he2] at hprev
    exact hprev

end Stockbar
